import Mathlib

/-!
Shallow embedding of the Codenix IDE repository: the data model from
types.ts, the webhook client from services/codenixService.ts, and the
state handlers, preview composer and panel resizing of the main
application component.
-/

set_option maxHeartbeats 1000000

namespace Codenix

/-- File record from types.ts: a name, a text body, and the constant
discriminant field whose value is always the literal file tag. -/
structure FileNode where
  name : String
  content : String
  ftype : String
deriving DecidableEq

/-- Chat message sender from types.ts. -/
inductive Sender where
  | user
  | ai
deriving DecidableEq

/-- Chat message from types.ts; the optional isError flag is modelled as a
Bool that is false when the flag is absent. -/
structure ChatMessage where
  sender : Sender
  content : String
  isError : Bool
deriving DecidableEq

/-- Service result union from types.ts. -/
inductive CodenixServiceResponse where
  | success (message : String)
  | failure (error : String)
deriving DecidableEq

/-- JSON values, used for the POST body and for the parsed webhook reply. -/
inductive Json where
  | null
  | bool (b : Bool)
  | num (n : Int)
  | str (s : String)
  | arr (elems : List Json)
  | obj (fields : List (String × Json))

/-- JavaScript truthiness of a JSON value. -/
def truthy : Json → Bool
  | .null => false
  | .bool b => b
  | .num n => n != 0
  | .str s => s != ""
  | .arr _ => true
  | .obj _ => true

/-- Reads a field of a JSON object when that field is a string, mirroring
a typeof-string check on a property access; any non-object yields none. -/
def stringField (key : String) : Json → Option String
  | .obj fields =>
    match fields.find? (fun p => p.1 == key) with
    | some (_, .str s) => some s
    | _ => none
  | _ => none

/-- A value thrown inside the try block: an Error object carrying a
message, or any non-Error value. -/
inductive ThrownValue where
  | errorObj (msg : String)
  | nonError
deriving DecidableEq

/-- The message the catch block extracts from a thrown value. -/
def thrownMessage : ThrownValue → String
  | .errorObj m => m
  | .nonError => "An unknown error occurred."

/-- JavaScript string trim: removes leading and trailing whitespace. -/
def jsTrim (s : String) : String :=
  ⟨((s.data.dropWhile Char.isWhitespace).reverse.dropWhile Char.isWhitespace).reverse⟩

/-- Behaviour of the webhook environment for one fetch call: the fetch
itself may throw, or it returns a response with an ok flag and a status,
whose body either parses as JSON or makes the json call throw. -/
inductive WebhookBehaviour where
  | fetchThrow (t : ThrownValue)
  | reply (ok : Bool) (status : Nat) (body : Except ThrownValue Json)

/-- Modelled from the spec: the fixed webhook URL imported from
constants.ts, a file that is not among the sources; the spec states only
that it is a single fixed URL. -/
def ACTIVEPIECES_WEBHOOK_URL : String := "activepieces-webhook-url"

/-- The instruction template sendMessageToModel wraps around the user's
message. -/
def systemPromptFor (prompt : String) : String :=
  "You are Nix 1.5, an expert AI web developer. Your single purpose is to generate code based on the user's request.\nUser's request: \"" ++ prompt ++ "\"\nRespond ONLY with the raw code for the user's request. Do NOT add any conversational text, explanations, or markdown formatting."

/-- One HTTP request as issued by fetch. -/
structure HttpRequest where
  url : String
  method : String
  contentType : String
  body : Json

/-- The single request sendMessageToModel builds for a prompt. -/
def requestFor (prompt : String) : HttpRequest :=
  { url := ACTIVEPIECES_WEBHOOK_URL
    method := "POST"
    contentType := "application/json"
    body := Json.obj [("question", Json.str (systemPromptFor prompt))] }

/-- services/codenixService.ts sendMessageToModel: returns the list of
fetch calls issued together with the service response. -/
def sendMessageToModel (prompt : String) (wb : WebhookBehaviour) :
    List HttpRequest × CodenixServiceResponse :=
  ([requestFor prompt],
    match wb with
    | .fetchThrow t => .failure (thrownMessage t)
    | .reply ok status body =>
      if ok then
        match body with
        | .error t => .failure (thrownMessage t)
        | .ok rawData =>
          if truthy rawData then
            match stringField ("answer") rawData with
            | some a => .success (jsTrim a)
            | none => .success ("Received an empty or unexpected response from the model.")
          else .success ("Received an empty or unexpected response from the model.")
      else .failure ("Webhook failed with status: " ++ toString status))

/-- Right-panel tab. -/
inductive Tab where
  | preview
  | chat
deriving DecidableEq

/-- The slice of the App component state that the handlers read and write. -/
structure AppState where
  message : String
  files : List FileNode
  activeFile : Option String
  isLoading : Bool
  chatHistory : List ChatMessage
  activeTab : Tab
  consoleHeight : Int
  isConsoleVisible : Bool

/-- App.handleContentChange: the falsy guard returns the store unchanged
when the active file is null or the empty string; otherwise the files
whose name equals the active file get the new content. -/
def handleContentChange (activeFile : Option String) (newContent : String)
    (files : List FileNode) : List FileNode :=
  match activeFile with
  | none => files
  | some a =>
    if a == "" then files
    else files.map (fun f => if f.name == a then { f with content := newContent } else f)

/-- App.handleSendMessage: the net state transition of one send, with the
webhook environment passed explicitly. -/
def handleSendMessage (s : AppState) (wb : WebhookBehaviour) : AppState :=
  if jsTrim s.message = "" then s
  else
    match (sendMessageToModel s.message wb).2 with
    | .failure e =>
      { s with
        chatHistory := s.chatHistory ++ [⟨.user, s.message, false⟩] ++ [⟨.ai, e, true⟩]
        message := ""
        isLoading := false
        isConsoleVisible := true
        consoleHeight := 192
        activeTab := .chat }
    | .success m =>
      { s with
        chatHistory := s.chatHistory ++ [⟨.user, s.message, false⟩] ++ [⟨.ai, m, false⟩]
        message := ""
        isLoading := false
        files := s.files.filter (fun f => f.name != "content") ++ [⟨"content", m, "file"⟩]
        activeFile := some ("content")
        activeTab := .preview }

/-- App.handleAddNewFile on the file store: the prompt result may be null
(none) or a string; empty input is falsy and ignored, and duplicate names
are rejected by the guard. -/
def handleAddNewFile (files : List FileNode) (promptResult : Option String) :
    List FileNode :=
  match promptResult with
  | none => files
  | some fileName =>
    if fileName == "" then files
    else if files.any (fun f => f.name == fileName) then files
    else files ++ [⟨fileName, "", "file"⟩]

/-- App.handleRenameFile on the file store: an empty or unchanged trimmed
name and a duplicate trimmed name leave the store untouched; otherwise the
files whose name equals the old name take the trimmed new name. -/
def handleRenameFile (files : List FileNode) (oldName newName : String) :
    List FileNode :=
  let trimmedNewName := jsTrim newName
  if trimmedNewName == "" || trimmedNewName == oldName then files
  else if files.any (fun f => f.name == trimmedNewName) then files
  else files.map (fun f => if f.name == oldName then { f with name := trimmedNewName } else f)

/-- Modelled from the spec: the spec lists delete among the file-store
list operations, but no delete handler appears among the sources; deletion
removes the files with the given name from the store. -/
def handleDeleteFile (files : List FileNode) (fileName : String) : List FileNode :=
  files.filter (fun f => f.name != fileName)

/-- Name uniqueness invariant of the file store. -/
def uniqueNames (files : List FileNode) : Prop :=
  (files.map FileNode.name).Nodup

/-- Character-list view of strings, for the preview string algorithms. -/
abbrev Chars := List Char

/-- Whether the pattern is a prefix of the string. -/
def startsWithL : Chars → Chars → Bool
  | _, [] => true
  | [], _ :: _ => false
  | a :: as, b :: bs => a == b && startsWithL as bs

/-- Index of the first occurrence of the pattern in the string, as
indexOf computes it. -/
def findOcc (pat : Chars) : Chars → Option Nat
  | [] => if startsWithL [] pat then some 0 else none
  | c :: rest =>
    if startsWithL (c :: rest) pat then some 0
    else (findOcc pat rest).map (fun n => n + 1)

/-- ECMAScript GetSubstitution for a string search value: dollar-dollar
yields a dollar, dollar-ampersand the matched text, dollar-backquote the
text before the match, dollar-quote the text after it; all other text,
including any unrecognised dollar sequence, is copied verbatim. -/
def getSubstitution (matched before after : Chars) : Chars → Chars
  | [] => []
  | [c] => [c]
  | c :: d :: rest =>
    if c = '$' then
      if d = '$' then '$' :: getSubstitution matched before after rest
      else if d = '&' then matched ++ getSubstitution matched before after rest
      else if d = Char.ofNat 96 then before ++ getSubstitution matched before after rest
      else if d = Char.ofNat 39 then after ++ getSubstitution matched before after rest
      else c :: getSubstitution matched before after (d :: rest)
    else c :: getSubstitution matched before after (d :: rest)

/-- String replace with a string pattern: only the first occurrence is
replaced, and the replacement text undergoes the dollar substitution. -/
def replaceFirst (s pat rep : Chars) : Chars :=
  match findOcc pat s with
  | none => s
  | some i =>
    s.take i ++ getSubstitution pat (s.take i) (s.drop (i + pat.length)) rep
      ++ s.drop (i + pat.length)

/-- Array join with a separator. -/
def joinSep (sep : Chars) : List Chars → Chars
  | [] => []
  | [x] => x
  | x :: y :: xs => x ++ sep ++ joinSep sep (y :: xs)

/-- Shared shape of the two preview insertion steps: when the document
contains the closing tag, the inserted text goes right before the first
occurrence followed by a newline; otherwise it is appended. -/
def injectBefore (doc pat ins : Chars) : Chars :=
  if (findOcc pat doc).isSome then replaceFirst doc pat (ins ++ ("\n").data ++ pat)
  else doc ++ ins

/-- JavaScript String endsWith over the character lists. -/
def endsWithL (s suffix : String) : Bool :=
  startsWithL s.data.reverse suffix.data.reverse

/-- A css file body wrapped in a style element. -/
def wrapStyle (c : String) : Chars :=
  ("<style>").data ++ c.data ++ ("</style>").data

/-- A js file body wrapped in a module script element. -/
def wrapScript (c : String) : Chars :=
  ("<script type=\"module\">").data ++ c.data ++ ("</script>").data

/-- The designated HTML file of the preview: the file named content when
present, otherwise the first file whose name ends in the html extension. -/
def designatedHtml (files : List FileNode) : Option FileNode :=
  match files.find? (fun f => f.name == "content") with
  | some f => some f
  | none => files.find? (fun f => endsWithL f.name (".html"))

def cssFilesOf (files : List FileNode) : List FileNode :=
  files.filter (fun f => endsWithL f.name (".css"))

def jsFilesOf (files : List FileNode) : List FileNode :=
  files.filter (fun f => endsWithL f.name (".js"))

/-- The style blocks of all css files joined with newlines. -/
def stylesOf (files : List FileNode) : Chars :=
  joinSep (("\n").data) ((cssFilesOf files).map (fun f => wrapStyle f.content))

/-- The script blocks of all js files joined with newlines. -/
def scriptsOf (files : List FileNode) : Chars :=
  joinSep (("\n").data) ((jsFilesOf files).map (fun f => wrapScript f.content))

/-- The styled document: the designated HTML after the style insertion
step. -/
def styledDoc (files : List FileNode) (htmlFile : FileNode) : Chars :=
  injectBefore htmlFile.content.data (("</head>").data) (stylesOf files)

def noHtmlMessage : Chars := ("<h1>No HTML file found to preview.</h1>").data

/-- App.previewContent: the composed preview document. -/
def previewContentL (files : List FileNode) : Chars :=
  match designatedHtml files with
  | none => noHtmlMessage
  | some htmlFile => injectBefore (styledDoc files htmlFile) (("</body>").data) (scriptsOf files)

/-- Resizable panel dimensions in pixels. -/
structure Panels where
  explorerWidth : Int
  rightPanelWidth : Int
  consoleHeight : Int
deriving DecidableEq

/-- One resize drag step, identified by the divider it moves. -/
inductive DragEvent where
  | explorer (dx : Int)
  | rightPanel (dx : Int)
  | console (dy : Int)
deriving DecidableEq

/-- The per-step clamps of the three Resizer onDrag callbacks. -/
def dragStep (p : Panels) : DragEvent → Panels
  | .explorer dx => { p with explorerWidth := max 200 (p.explorerWidth + dx) }
  | .rightPanel dx => { p with rightPanelWidth := max 200 (p.rightPanelWidth - dx) }
  | .console dy => { p with consoleHeight := max 0 (p.consoleHeight - dy) }

/-- Initial panel state: explorer 256, right panel a third of the window
width (passed as a parameter), console hidden at height 0. -/
def initialPanels (rightInit : Int) : Panels :=
  { explorerWidth := 256, rightPanelWidth := rightInit, consoleHeight := 0 }

/-- The panel state after a sequence of drag events from the initial
state. -/
def runDrags (rightInit : Int) (events : List DragEvent) : Panels :=
  events.foldl dragStep (initialPanels rightInit)

/-- Substring occurrence as a decomposition of the ambient string. -/
def SubstrL (pat s : Chars) : Prop := ∃ pre post, s = pre ++ pat ++ post

lemma startsWithL_iff (s pat : Chars) :
    startsWithL s pat = true ↔ ∃ post, s = pat ++ post := by
  induction pat generalizing s with
  | nil => simp [startsWithL]
  | cons b bs ih =>
    cases s with
    | nil => simp [startsWithL]
    | cons a as => simp [startsWithL, ih]

lemma findOcc_some (pat : Chars) :
    ∀ (s : Chars) (i : Nat), findOcc pat s = some i →
      ∃ pre post, s = pre ++ pat ++ post ∧ pre.length = i := by
  intro s
  induction s with
  | nil =>
    intro i h
    simp only [findOcc] at h
    split at h
    · rename_i hs
      obtain ⟨post, hp⟩ := (startsWithL_iff _ _).mp hs
      have hpat : pat = [] := by
        cases pat with
        | nil => rfl
        | cons x xs => simp at hp
      injection h with h0
      exact ⟨[], [], by simp [hpat], by simpa using h0⟩
    · exact absurd h (by simp)
  | cons c rest ih =>
    intro i h
    simp only [findOcc] at h
    split at h
    · rename_i hs
      obtain ⟨post, hp⟩ := (startsWithL_iff _ _).mp hs
      injection h with h0
      exact ⟨[], post, by simpa using hp, by simpa using h0⟩
    · rename_i hs
      obtain ⟨j, hj, hij⟩ := Option.map_eq_some'.mp h
      obtain ⟨pre, post, hsplit, hlen⟩ := ih j hj
      exact ⟨c :: pre, post, by simp [hsplit], by simp [hlen, hij]⟩

lemma startsWithL_isSome_findOcc (pat s : Chars) (h : startsWithL s pat = true) :
    (findOcc pat s).isSome = true := by
  cases s with
  | nil => simp [findOcc, h]
  | cons c rest => simp [findOcc, h]

lemma findOcc_isSome_of_split (pat : Chars) :
    ∀ (pre post : Chars), (findOcc pat (pre ++ pat ++ post)).isSome = true := by
  intro pre
  induction pre with
  | nil =>
    intro post
    apply startsWithL_isSome_findOcc
    exact (startsWithL_iff _ _).mpr ⟨post, by simp⟩
  | cons c cs ih =>
    intro post
    have hcons : (c :: cs) ++ pat ++ post = c :: (cs ++ pat ++ post) := by simp
    rw [hcons]
    simp only [findOcc]
    split
    · simp
    · simpa using ih post

lemma SubstrL_iff_findOcc (pat s : Chars) :
    SubstrL pat s ↔ (findOcc pat s).isSome = true := by
  constructor
  · rintro ⟨pre, post, rfl⟩
    exact findOcc_isSome_of_split pat pre post
  · intro h
    obtain ⟨i, hi⟩ := Option.isSome_iff_exists.mp h
    obtain ⟨pre, post, hs, _⟩ := findOcc_some pat s i hi
    exact ⟨pre, post, hs⟩

lemma SubstrL.append_left {pat s : Chars} (t : Chars) (h : SubstrL pat s) :
    SubstrL pat (s ++ t) := by
  obtain ⟨pre, post, rfl⟩ := h
  exact ⟨pre, post ++ t, by simp⟩

lemma SubstrL.append_right {pat s : Chars} (t : Chars) (h : SubstrL pat s) :
    SubstrL pat (t ++ s) := by
  obtain ⟨pre, post, rfl⟩ := h
  exact ⟨t ++ pre, post, by simp⟩

lemma SubstrL.trans {a b c : Chars} (hab : SubstrL a b) (hbc : SubstrL b c) :
    SubstrL a c := by
  obtain ⟨p1, q1, rfl⟩ := hab
  obtain ⟨p2, q2, rfl⟩ := hbc
  exact ⟨p2 ++ p1, q1 ++ q2, by simp⟩

lemma substr_joinSep (sep : Chars) :
    ∀ (blocks : List Chars) (b : Chars), b ∈ blocks → SubstrL b (joinSep sep blocks)
  | [], b, h => absurd h (List.not_mem_nil b)
  | [x], b, h => by
    rw [List.mem_singleton] at h
    subst h
    exact ⟨[], [], by simp [joinSep]⟩
  | x :: y :: xs, b, h => by
    rcases List.mem_cons.mp h with h1 | h2
    · subst h1
      exact ⟨[], sep ++ joinSep sep (y :: xs), by simp [joinSep]⟩
    · have hsub := substr_joinSep sep (y :: xs) b h2
      have hjoin : joinSep sep (x :: y :: xs) = (x ++ sep) ++ joinSep sep (y :: xs) := by
        simp [joinSep]
      rw [hjoin]
      exact hsub.append_right (x ++ sep)

lemma getSubstitution_of_not_mem (matched before after : Chars) :
    ∀ (rep : Chars), '$' ∉ rep → getSubstitution matched before after rep = rep
  | [], _ => rfl
  | [c], _ => rfl
  | c :: d :: rest, h => by
    have hc : ¬ c = '$' := by
      intro hx
      exact h (hx ▸ List.mem_cons_self c (d :: rest))
    have hrest : '$' ∉ d :: rest := fun hm => h (List.mem_cons_of_mem c hm)
    simp only [getSubstitution]
    rw [if_neg hc, getSubstitution_of_not_mem matched before after (d :: rest) hrest]

lemma not_mem_joinSep (c : Char) (sep : Chars) :
    ∀ (blocks : List Chars), c ∉ sep → (∀ b ∈ blocks, c ∉ b) →
      c ∉ joinSep sep blocks
  | [], _, _ => by simp [joinSep]
  | [x], _, hb => by
    simpa [joinSep] using hb x (List.mem_singleton_self x)
  | x :: y :: xs, hsep, hb => by
    have hrec := not_mem_joinSep c sep (y :: xs) hsep
      (fun b hbm => hb b (List.mem_cons_of_mem x hbm))
    simp only [joinSep]
    intro hm
    rcases List.mem_append.mp hm with hm1 | h3
    · rcases List.mem_append.mp hm1 with h1 | h2
      · exact hb x (List.mem_cons_self x (y :: xs)) h1
      · exact hsep h2
    · exact hrec h3

lemma substr_ins_injectBefore (doc pat ins : Chars)
    (hins : '$' ∉ ins) (hpat : '$' ∉ pat) :
    SubstrL ins (injectBefore doc pat ins) := by
  have hd : '$' ∉ ins ++ ("\n").data ++ pat := by
    intro hm
    rcases List.mem_append.mp hm with hm1 | h3
    · rcases List.mem_append.mp hm1 with h1 | h2
      · exact hins h1
      · exact absurd h2 (by decide)
    · exact hpat h3
  unfold injectBefore
  split
  · rename_i h
    obtain ⟨i, hi⟩ := Option.isSome_iff_exists.mp h
    unfold replaceFirst
    rw [hi]
    show SubstrL ins (doc.take i ++
      getSubstitution pat (doc.take i) (doc.drop (i + pat.length)) (ins ++ ("\n").data ++ pat) ++
      doc.drop (i + pat.length))
    rw [getSubstitution_of_not_mem pat (doc.take i) (doc.drop (i + pat.length)) _ hd]
    exact ⟨doc.take i, ("\n").data ++ pat ++ doc.drop (i + pat.length), by simp⟩
  · exact ⟨doc, [], by simp⟩

lemma not_mem_wrapStyle (s : String) (h : '$' ∉ s.data) : '$' ∉ wrapStyle s := by
  unfold wrapStyle
  intro hm
  rcases List.mem_append.mp hm with hm1 | h3
  · rcases List.mem_append.mp hm1 with h1 | h2
    · exact absurd h1 (by decide)
    · exact h h2
  · exact absurd h3 (by decide)

lemma not_mem_wrapScript (s : String) (h : '$' ∉ s.data) : '$' ∉ wrapScript s := by
  unfold wrapScript
  intro hm
  rcases List.mem_append.mp hm with hm1 | h3
  · rcases List.mem_append.mp hm1 with h1 | h2
    · exact absurd h1 (by decide)
    · exact h h2
  · exact absurd h3 (by decide)

lemma name_not_mem_of_any_eq_false (files : List FileNode) (n : String)
    (h : files.any (fun f => f.name == n) = false) :
    n ∉ files.map FileNode.name := by
  intro hmem
  obtain ⟨f, hf, hfn⟩ := List.mem_map.mp hmem
  have hany : files.any (fun f => f.name == n) = true :=
    List.any_eq_true.mpr ⟨f, hf, by simp [hfn]⟩
  rw [h] at hany
  exact absurd hany (by simp)

lemma uniqueNames_rename_map (files : List FileNode) (oldName t : String)
    (hu : uniqueNames files)
    (ht : files.any (fun f => f.name == t) = false) :
    uniqueNames (files.map (fun f => if f.name == oldName then { f with name := t } else f)) := by
  unfold uniqueNames at hu ⊢
  have hnot : t ∉ files.map FileNode.name := name_not_mem_of_any_eq_false files t ht
  have hmap : (files.map (fun f => if f.name == oldName then { f with name := t } else f)).map FileNode.name
      = (files.map FileNode.name).map (fun n => if n == oldName then t else n) := by
    simp only [List.map_map]
    apply List.map_congr_left
    intro f _
    by_cases hf : f.name = oldName
    · simp [hf]
    · simp [hf]
  rw [hmap]
  apply List.Nodup.map_on ?_ hu
  intro a ha b hb hab
  by_cases h1 : (a == oldName) = true
  · by_cases h2 : (b == oldName) = true
    · rw [beq_iff_eq] at h1 h2
      rw [h1, h2]
    · rw [if_pos h1, if_neg h2] at hab
      exact absurd (hab ▸ hb) hnot
  · by_cases h2 : (b == oldName) = true
    · rw [if_neg h1, if_pos h2] at hab
      exact absurd (hab ▸ ha) hnot
    · rwa [if_neg h1, if_neg h2] at hab

lemma dragStep_explorer_lb (p : Panels) (e : DragEvent) (h : 200 ≤ p.explorerWidth) :
    200 ≤ (dragStep p e).explorerWidth := by
  cases e with
  | explorer dx => exact le_max_left _ _
  | rightPanel dx => simpa [dragStep] using h
  | console dy => simpa [dragStep] using h

lemma dragStep_console_lb (p : Panels) (e : DragEvent) (h : 0 ≤ p.consoleHeight) :
    0 ≤ (dragStep p e).consoleHeight := by
  cases e with
  | explorer dx => simpa [dragStep] using h
  | rightPanel dx => simpa [dragStep] using h
  | console dy => exact le_max_left _ _

lemma dragStep_right_lb (p : Panels) (e : DragEvent) (h : 200 ≤ p.rightPanelWidth) :
    200 ≤ (dragStep p e).rightPanelWidth := by
  cases e with
  | explorer dx => simpa [dragStep] using h
  | rightPanel dx => exact le_max_left _ _
  | console dy => simpa [dragStep] using h

lemma foldl_explorer_lb (events : List DragEvent) :
    ∀ (p : Panels), 200 ≤ p.explorerWidth →
      200 ≤ (events.foldl dragStep p).explorerWidth := by
  induction events with
  | nil => intro p h; simpa using h
  | cons e es ih => intro p h; exact ih _ (dragStep_explorer_lb p e h)

lemma foldl_console_lb (events : List DragEvent) :
    ∀ (p : Panels), 0 ≤ p.consoleHeight →
      0 ≤ (events.foldl dragStep p).consoleHeight := by
  induction events with
  | nil => intro p h; simpa using h
  | cons e es ih => intro p h; exact ih _ (dragStep_console_lb p e h)

lemma foldl_right_lb (events : List DragEvent) :
    ∀ (p : Panels), 200 ≤ p.rightPanelWidth →
      200 ≤ (events.foldl dragStep p).rightPanelWidth := by
  induction events with
  | nil => intro p h; simpa using h
  | cons e es ih => intro p h; exact ih _ (dragStep_right_lb p e h)

lemma foldl_right_after_drag (events : List DragEvent) :
    ∀ (p : Panels), (∃ dx, DragEvent.rightPanel dx ∈ events) →
      200 ≤ (events.foldl dragStep p).rightPanelWidth := by
  induction events with
  | nil => rintro p ⟨dx, h⟩; simp at h
  | cons e es ih =>
    rintro p ⟨dx, h⟩
    rcases List.mem_cons.mp h with h1 | h2
    · subst h1
      exact foldl_right_lb es _ (le_max_left _ _)
    · exact ih _ ⟨dx, h2⟩

/-- C10 (amended): after any drag sequence the explorer width stays at
least 200 pixels and the console height at least 0; the right panel width
is at least 200 after any sequence containing a right-panel drag, while
before its first drag it keeps its window-proportional initial value. -/
theorem panel_bounds_after_drags (rightInit : Int) (events : List DragEvent) :
    200 ≤ (runDrags rightInit events).explorerWidth ∧
    0 ≤ (runDrags rightInit events).consoleHeight ∧
    ((∃ dx, DragEvent.rightPanel dx ∈ events) →
      200 ≤ (runDrags rightInit events).rightPanelWidth) := by
  refine ⟨?_, ?_, ?_⟩
  · exact foldl_explorer_lb events (initialPanels rightInit) (by simp [initialPanels])
  · exact foldl_console_lb events (initialPanels rightInit) (by simp [initialPanels])
  · intro hdrag
    exact foldl_right_after_drag events (initialPanels rightInit) hdrag

/-- C10 counterexample: with a 300 pixel window the right panel starts at
99 pixels and stays below the 200 pixel bound across a drag sequence that
never touches its divider. -/
theorem rightPanel_initial_below_min :
    (runDrags 99 [DragEvent.explorer 5]).rightPanelWidth = 99 ∧
    ¬ 200 ≤ (runDrags 99 [DragEvent.explorer 5]).rightPanelWidth := by
  exact ⟨rfl, by decide⟩

/-- Witness: a sequence with one right-panel drag ends with that panel at
or above the 200 pixel bound even from a 99 pixel start. -/
theorem panel_bounds_after_drags_witness :
    200 ≤ (runDrags 99 [DragEvent.rightPanel 3]).rightPanelWidth :=
  (panel_bounds_after_drags 99 [DragEvent.rightPanel 3]).2.2 ⟨3, by decide⟩

/-- C5: every file-store operation (adding a file, renaming a file, and
the spec-modelled deletion) keeps file names unique: a store with unique
names yields a store with unique names, the add and rename guards
rejecting duplicate names. -/
theorem fileStore_ops_preserve_unique_names
    (files : List FileNode) (hu : uniqueNames files)
    (promptResult : Option String) (oldName newName delName : String) :
    uniqueNames (handleAddNewFile files promptResult) ∧
    uniqueNames (handleRenameFile files oldName newName) ∧
    uniqueNames (handleDeleteFile files delName) := by
  refine ⟨?_, ?_, ?_⟩
  · cases promptResult with
    | none => exact hu
    | some fileName =>
      by_cases h1 : (fileName == "") = true
      · simp only [handleAddNewFile, if_pos h1]
        exact hu
      · by_cases h2 : (files.any (fun f => f.name == fileName)) = true
        · simp only [handleAddNewFile, if_neg h1, if_pos h2]
          exact hu
        · have h2f : files.any (fun f => f.name == fileName) = false := by
            simpa using h2
          simp only [handleAddNewFile, if_neg h1, if_neg h2]
          unfold uniqueNames
          rw [List.map_append, List.nodup_append]
          refine ⟨hu, by simp, ?_⟩
          intro a ha hb
          simp only [List.map_cons, List.map_nil, List.mem_singleton] at hb
          exact name_not_mem_of_any_eq_false files fileName h2f (hb ▸ ha)
  · simp only [handleRenameFile]
    split
    · exact hu
    · split
      · exact hu
      · rename_i h1 h2
        exact uniqueNames_rename_map files oldName (jsTrim newName) hu (by simpa using h2)
  · unfold handleDeleteFile uniqueNames
    have hsub : List.Sublist (files.filter (fun f => f.name != delName)) files :=
      List.filter_sublist files
    exact List.Nodup.sublist (List.Sublist.map FileNode.name hsub) hu

/-- Witness for the uniqueness preservation theorem on a concrete store. -/
theorem fileStore_ops_preserve_unique_names_witness :
    uniqueNames (handleAddNewFile [⟨"a.html", "x", "file"⟩, ⟨"b.css", "y", "file"⟩] (some ("c.js"))) ∧
    uniqueNames (handleRenameFile [⟨"a.html", "x", "file"⟩, ⟨"b.css", "y", "file"⟩] ("a.html") ("d.html")) ∧
    uniqueNames (handleDeleteFile [⟨"a.html", "x", "file"⟩, ⟨"b.css", "y", "file"⟩] ("b.css")) :=
  fileStore_ops_preserve_unique_names _ (by unfold uniqueNames; decide) _ _ _ _

/-- C6: renaming an existing file to a name whose trimmed form equals the
name of a different existing file is rejected: the store is returned
unchanged. -/
theorem handleRenameFile_duplicate_rejected
    (files : List FileNode) (oldName newName : String)
    (_hold : ∃ f ∈ files, f.name = oldName)
    (hdup : ∃ f ∈ files, f.name = jsTrim newName ∧ f.name ≠ oldName) :
    handleRenameFile files oldName newName = files := by
  obtain ⟨g, hg, hgn, _⟩ := hdup
  simp only [handleRenameFile]
  split
  · rfl
  · have hany : files.any (fun f => f.name == jsTrim newName) = true :=
      List.any_eq_true.mpr ⟨g, hg, by simp [hgn]⟩
    simp [hany]

/-- Witness: renaming a.html to the already used trimmed name b.css is a
no-op on a concrete store. -/
theorem handleRenameFile_duplicate_rejected_witness :
    handleRenameFile [⟨"a.html", "x", "file"⟩, ⟨"b.css", "y", "file"⟩] ("a.html") (" b.css ") =
      [⟨"a.html", "x", "file"⟩, ⟨"b.css", "y", "file"⟩] :=
  handleRenameFile_duplicate_rejected _ _ _ (by decide) (by decide)

/-- C9 counterexample: with the active file set to the empty string and a
store containing a file of that name, the falsy guard returns the store
unchanged, so the file whose name equals the active file is not updated. -/
theorem handleContentChange_empty_active_no_update :
    handleContentChange (some ("")) ("z") [⟨"", "1", "file"⟩] = [⟨"", "1", "file"⟩] ∧
    (handleContentChange (some ("")) ("z") [⟨"", "1", "file"⟩])[0]? ≠
      some ⟨"", "z", "file"⟩ :=
  ⟨rfl, by decide⟩

/-- C9 (amended): with a non-empty active file name, handleContentChange
updates only the content of files whose name equals the active file,
preserving the length, the order and all other names and contents; when
the active file is null or the empty string, both falsy, the store is
returned unchanged. -/
theorem handleContentChange_frame
    (activeFile : Option String) (newContent : String) (files : List FileNode) :
    (activeFile = none → handleContentChange activeFile newContent files = files) ∧
    (activeFile = some ("") → handleContentChange activeFile newContent files = files) ∧
    ∀ a, a ≠ "" → activeFile = some a →
      (handleContentChange activeFile newContent files).length = files.length ∧
      ∀ (i : Nat) (f : FileNode), files[i]? = some f →
        (f.name ≠ a → (handleContentChange activeFile newContent files)[i]? = some f) ∧
        (f.name = a → (handleContentChange activeFile newContent files)[i]? =
          some { f with content := newContent }) := by
  refine ⟨?_, ?_, ?_⟩
  · intro h; subst h; rfl
  · intro h; subst h; simp [handleContentChange]
  · intro a hne0 h; subst h
    have hif : handleContentChange (some a) newContent files =
        files.map (fun f => if f.name == a then { f with content := newContent } else f) := by
      simp [handleContentChange, hne0]
    rw [hif]
    constructor
    · simp
    · intro i f hf
      constructor
      · intro hne
        simp [List.getElem?_map, hf, hne]
      · intro heq
        simp [List.getElem?_map, hf, heq]

/-- Witness: editing with the non-empty active file a leaves the other
file b untouched at its position. -/
theorem handleContentChange_frame_witness :
    (handleContentChange (some ("a")) "z" [⟨"a", "1", "file"⟩, ⟨"b", "2", "file"⟩])[1]? =
      some ⟨"b", "2", "file"⟩ :=
  ((handleContentChange_frame (some ("a")) "z" [⟨"a", "1", "file"⟩, ⟨"b", "2", "file"⟩]).2.2
    ("a") (by decide) rfl).2 1 ⟨"b", "2", "file"⟩ rfl |>.1 (by decide)

/-- C1 (amended): every call issues exactly one POST to the fixed webhook
URL whose JSON body has a single question field holding the fixed
instruction template with the user's message embedded, regardless of the
webhook outcome, and no retry happens. -/
theorem sendMessageToModel_single_request (prompt : String) (wb : WebhookBehaviour) :
    (sendMessageToModel prompt wb).1 = [requestFor prompt] ∧
    (requestFor prompt).url = ACTIVEPIECES_WEBHOOK_URL ∧
    (requestFor prompt).method = "POST" ∧
    stringField ("question") (requestFor prompt).body = some (systemPromptFor prompt) :=
  ⟨rfl, rfl, rfl, rfl⟩

/-- C1 counterexample: for the user message x the question field of the
single issued request is the wrapped instruction template, not the raw
user message. -/
theorem sendMessageToModel_question_ne_user_message :
    (sendMessageToModel ("x") (WebhookBehaviour.reply true 200 (Except.ok Json.null))).1 =
      [requestFor ("x")] ∧
    stringField ("question") (requestFor ("x")).body ≠ some ("x") := by
  refine ⟨rfl, ?_⟩
  decide

/-- C3: an ok response with a parsed JSON body yields success with the
trimmed answer when the answer field is a string, and success with the
fixed placeholder message otherwise; never a failure. -/
theorem sendMessageToModel_ok_response (prompt : String) (status : Nat) (rawData : Json) :
    (sendMessageToModel prompt (WebhookBehaviour.reply true status (Except.ok rawData))).2 =
      match stringField ("answer") rawData with
      | some a => CodenixServiceResponse.success (jsTrim a)
      | none => CodenixServiceResponse.success
          "Received an empty or unexpected response from the model." := by
  cases rawData with
  | null => rfl
  | bool b => cases b <;> rfl
  | num n => simp [sendMessageToModel, truthy, stringField]
  | str s => simp [sendMessageToModel, truthy, stringField]
  | arr elems => rfl
  | obj fields => rfl

/-- The failure cases of the claim: the fetch throws, or the response
status is not ok. -/
def failureError : WebhookBehaviour → Option String
  | .fetchThrow t => some (thrownMessage t)
  | .reply false status _ => some ("Webhook failed with status: " ++ toString status)
  | .reply true _ _ => none

/-- C2: when the fetch throws or the status is not ok, the service returns
a failure carrying a single error string, the handler appends it to the
transcript as an error-flagged AI message after the user message, and the
file store and the active file are unchanged. -/
theorem handleSendMessage_failure_frame
    (s : AppState) (wb : WebhookBehaviour) (e : String)
    (hmsg : jsTrim s.message ≠ "")
    (hfail : failureError wb = some e) :
    (sendMessageToModel s.message wb).2 = CodenixServiceResponse.failure e ∧
    (handleSendMessage s wb).files = s.files ∧
    (handleSendMessage s wb).activeFile = s.activeFile ∧
    (handleSendMessage s wb).chatHistory =
      s.chatHistory ++ [⟨Sender.user, s.message, false⟩, ⟨Sender.ai, e, true⟩] := by
  have hresp : (sendMessageToModel s.message wb).2 = CodenixServiceResponse.failure e := by
    cases wb with
    | fetchThrow t =>
      simp only [failureError, Option.some.injEq] at hfail
      simp [sendMessageToModel, hfail]
    | reply ok status body =>
      cases ok with
      | false =>
        simp only [failureError, Option.some.injEq] at hfail
        simp [sendMessageToModel, hfail]
      | true => simp [failureError] at hfail
  refine ⟨hresp, ?_, ?_, ?_⟩ <;>
    simp [handleSendMessage, if_neg hmsg, hresp]

/-- A concrete app state for the send witnesses. -/
def sampleState : AppState :=
  { message := "hi"
    files := [⟨"a.html", "x", "file"⟩]
    activeFile := some ("a.html")
    isLoading := false
    chatHistory := []
    activeTab := Tab.chat
    consoleHeight := 0
    isConsoleVisible := false }

/-- Witness: a 500 status produces a failed send that leaves the store
and active file of a concrete state intact and logs the error message. -/
theorem handleSendMessage_failure_frame_witness :
    (sendMessageToModel sampleState.message (WebhookBehaviour.reply false 500 (Except.ok Json.null))).2 =
      CodenixServiceResponse.failure ("Webhook failed with status: 500") ∧
    (handleSendMessage sampleState (WebhookBehaviour.reply false 500 (Except.ok Json.null))).files =
      sampleState.files ∧
    (handleSendMessage sampleState (WebhookBehaviour.reply false 500 (Except.ok Json.null))).activeFile =
      sampleState.activeFile ∧
    (handleSendMessage sampleState (WebhookBehaviour.reply false 500 (Except.ok Json.null))).chatHistory =
      sampleState.chatHistory ++ [⟨Sender.user, sampleState.message, false⟩,
        ⟨Sender.ai, "Webhook failed with status: 500", true⟩] :=
  handleSendMessage_failure_frame sampleState _ _ (by decide) (by decide)

/-- C4: on a successful response the handler appends the message to the
transcript as an AI message, stores it as the file named content placed at
the end of the store, makes that file active, and every file whose name is
not content is unchanged. -/
theorem handleSendMessage_success_updates
    (s : AppState) (wb : WebhookBehaviour) (m : String)
    (hmsg : jsTrim s.message ≠ "")
    (hok : (sendMessageToModel s.message wb).2 = CodenixServiceResponse.success m) :
    (handleSendMessage s wb).chatHistory =
      s.chatHistory ++ [⟨Sender.user, s.message, false⟩, ⟨Sender.ai, m, false⟩] ∧
    (handleSendMessage s wb).activeFile = some ("content") ∧
    (handleSendMessage s wb).files.getLast? = some ⟨"content", m, "file"⟩ ∧
    (handleSendMessage s wb).files.filter (fun f => f.name != "content") =
      s.files.filter (fun f => f.name != "content") ∧
    ∀ f ∈ s.files, f.name ≠ "content" → f ∈ (handleSendMessage s wb).files := by
  have hred : handleSendMessage s wb =
      { s with
        chatHistory := s.chatHistory ++ [⟨Sender.user, s.message, false⟩] ++ [⟨Sender.ai, m, false⟩]
        message := ""
        isLoading := false
        files := s.files.filter (fun f => f.name != "content") ++ [⟨"content", m, "file"⟩]
        activeFile := some ("content")
        activeTab := Tab.preview } := by
    simp [handleSendMessage, if_neg hmsg, hok]
  refine ⟨?_, ?_, ?_, ?_, ?_⟩
  · rw [hred]; simp
  · rw [hred]
  · rw [hred]
    simp [List.getLast?_concat]
  · rw [hred]
    simp only [List.filter_append]
    rw [List.filter_filter]
    simp [List.filter_congr]
  · intro f hf hne
    rw [hred]
    simp only []
    apply List.mem_append_left
    exact List.mem_filter.mpr ⟨hf, by simp [hne]⟩

/-- Witness: a successful response on a concrete state makes content the
active file. -/
theorem handleSendMessage_success_updates_witness :
    (handleSendMessage sampleState (WebhookBehaviour.reply true 200
        (Except.ok (Json.obj [("answer", Json.str (" hi "))])))).activeFile = some ("content") :=
  (handleSendMessage_success_updates sampleState
    (WebhookBehaviour.reply true 200 (Except.ok (Json.obj [("answer", Json.str (" hi "))])))
    ("hi") (by decide) (by decide)).2.1

/-- Whether the environment throws an Error object whose message is the
empty string, the one case in which the returned error string is empty. -/
def carriesEmptyThrow : WebhookBehaviour → Bool
  | .fetchThrow (.errorObj m) => m == ""
  | .reply true _ (.error (.errorObj m)) => m == ""
  | _ => false

/-- C8 (amended): the service never propagates an exception: for every
environment behaviour it returns a success or a failure; the error string
of a failure is nonempty unless the environment threw an Error object
carrying an empty message, and conversely such a throw yields exactly the
failure with the empty error string. -/
theorem sendMessageToModel_total (prompt : String) (wb : WebhookBehaviour) :
    ((∃ m, (sendMessageToModel prompt wb).2 = CodenixServiceResponse.success m) ∨
      (∃ e, (sendMessageToModel prompt wb).2 = CodenixServiceResponse.failure e)) ∧
    (∀ e, (sendMessageToModel prompt wb).2 = CodenixServiceResponse.failure e →
      e = "" → carriesEmptyThrow wb = true) ∧
    (carriesEmptyThrow wb = true →
      (sendMessageToModel prompt wb).2 = CodenixServiceResponse.failure ("")) := by
  cases wb with
  | fetchThrow t =>
    refine ⟨Or.inr ⟨thrownMessage t, rfl⟩, ?_, ?_⟩
    · intro e he hee
      cases t with
      | errorObj msg =>
        have hme : msg = e := by
          simpa [sendMessageToModel, thrownMessage] using he
        simp [carriesEmptyThrow, hme, hee]
      | nonError =>
        have hme : "An unknown error occurred." = e := by
          simpa [sendMessageToModel, thrownMessage] using he
        rw [← hme] at hee
        exact absurd hee (by decide)
    · intro hc
      cases t with
      | errorObj msg =>
        have hm0 : msg = "" := by simpa [carriesEmptyThrow] using hc
        simp [sendMessageToModel, thrownMessage, hm0]
      | nonError => simp [carriesEmptyThrow] at hc
  | reply ok status body =>
    cases ok with
    | false =>
      refine ⟨Or.inr ⟨_, rfl⟩, ?_, ?_⟩
      · intro e he hee
        have hstr : ("Webhook failed with status: " ++ toString status) = e := by
          simpa [sendMessageToModel] using he
        rw [hee] at hstr
        have h0 := congrArg String.length hstr
        rw [String.length_append] at h0
        have h28 : ("Webhook failed with status: ").length = 28 := rfl
        have hemp : ("").length = 0 := rfl
        rw [h28, hemp] at h0
        omega
      · intro hc
        simp [carriesEmptyThrow] at hc
    | true =>
      cases body with
      | error t =>
        refine ⟨Or.inr ⟨thrownMessage t, by simp [sendMessageToModel]⟩, ?_, ?_⟩
        · intro e he hee
          cases t with
          | errorObj msg =>
            have hme : msg = e := by
              simpa [sendMessageToModel, thrownMessage] using he
            simp [carriesEmptyThrow, hme, hee]
          | nonError =>
            have hme : "An unknown error occurred." = e := by
              simpa [sendMessageToModel, thrownMessage] using he
            rw [← hme] at hee
            exact absurd hee (by decide)
        · intro hc
          cases t with
          | errorObj msg =>
            have hm0 : msg = "" := by simpa [carriesEmptyThrow] using hc
            simp [sendMessageToModel, thrownMessage, hm0]
          | nonError => simp [carriesEmptyThrow] at hc
      | ok rawData =>
        refine ⟨?_, ?_, ?_⟩
        · left
          by_cases ht : truthy rawData = true
          · cases hsf : stringField ("answer") rawData with
            | some a => exact ⟨jsTrim a, by simp [sendMessageToModel, ht, hsf]⟩
            | none =>
              exact ⟨"Received an empty or unexpected response from the model.",
                by simp [sendMessageToModel, ht, hsf]⟩
          · have ht2 : truthy rawData = false := by simpa using ht
            exact ⟨"Received an empty or unexpected response from the model.",
              by simp [sendMessageToModel, ht2]⟩
        · intro e he hee
          exfalso
          by_cases ht : truthy rawData = true
          · cases hsf : stringField ("answer") rawData with
            | some a => simp [sendMessageToModel, ht, hsf] at he
            | none => simp [sendMessageToModel, ht, hsf] at he
          · have ht2 : truthy rawData = false := by simpa using ht
            simp [sendMessageToModel, ht2] at he
        · intro hc
          simp [carriesEmptyThrow] at hc

/-- C8 counterexample: a fetch rejection with an Error whose message is
empty makes the service return a failure whose error string is empty, so
the error string is not always nonempty. -/
theorem sendMessageToModel_empty_error_string :
    (∃ e, (sendMessageToModel ("p") (WebhookBehaviour.fetchThrow (ThrownValue.errorObj ("")))).2 =
      CodenixServiceResponse.failure e) ∧
    ¬ (∃ e, (sendMessageToModel ("p") (WebhookBehaviour.fetchThrow (ThrownValue.errorObj ("")))).2 =
        CodenixServiceResponse.failure e ∧ e ≠ "") := by
  constructor
  · exact ⟨"", rfl⟩
  · rintro ⟨e, he, hne⟩
    have h0 : (sendMessageToModel ("p") (WebhookBehaviour.fetchThrow (ThrownValue.errorObj ("")))).2 =
        CodenixServiceResponse.failure ("") := rfl
    rw [h0] at he
    injection he with h1
    exact hne h1.symm

/-- Witness: the totality theorem applied where the environment throws an
empty-message Error, discharging its hypotheses at that input in both
directions. -/
theorem sendMessageToModel_total_witness :
    carriesEmptyThrow (WebhookBehaviour.fetchThrow (ThrownValue.errorObj (""))) = true ∧
    (sendMessageToModel ("p") (WebhookBehaviour.fetchThrow (ThrownValue.errorObj ("")))).2 =
      CodenixServiceResponse.failure ("") :=
  ⟨(sendMessageToModel_total ("p") (WebhookBehaviour.fetchThrow (ThrownValue.errorObj ("")))).2.1
      ("") rfl rfl,
    (sendMessageToModel_total ("p") (WebhookBehaviour.fetchThrow (ThrownValue.errorObj ("")))).2.2
      rfl⟩

/-- C7 (amended): with no designated HTML file the preview is the fixed
heading; otherwise the preview document is the styled document with the
script insertion applied before its first body close when present and
appended otherwise; every wrapped css block occurs in the styled document
and every wrapped js block occurs in the final preview document provided
the corresponding contents carry no dollar character, since the dollar
substitution of the replace call rewrites dollar sequences in the inserted
text, and a css block can also be broken when the script insertion point
falls inside it. -/
theorem previewContent_composition (files : List FileNode) :
    (designatedHtml files = none → previewContentL files = noHtmlMessage) ∧
    ∀ htmlFile, designatedHtml files = some htmlFile →
      previewContentL files =
        injectBefore (styledDoc files htmlFile) (("</body>").data) (scriptsOf files) ∧
      ((∀ g ∈ files, endsWithL g.name (".css") = true → '$' ∉ g.content.data) →
        ∀ f ∈ files, endsWithL f.name (".css") = true →
          SubstrL (wrapStyle f.content) (styledDoc files htmlFile)) ∧
      ((∀ g ∈ files, endsWithL g.name (".js") = true → '$' ∉ g.content.data) →
        ∀ f ∈ files, endsWithL f.name (".js") = true →
          SubstrL (wrapScript f.content) (previewContentL files)) := by
  constructor
  · intro h
    simp [previewContentL, h]
  · intro htmlFile hdes
    have hprev : previewContentL files =
        injectBefore (styledDoc files htmlFile) (("</body>").data) (scriptsOf files) := by
      simp [previewContentL, hdes]
    refine ⟨hprev, ?_, ?_⟩
    · intro hnodollar f hf hcss
      have hsty0 : '$' ∉ stylesOf files := by
        unfold stylesOf
        apply not_mem_joinSep
        · decide
        · intro b hbm
          obtain ⟨g, hgmem, rfl⟩ := List.mem_map.mp hbm
          exact not_mem_wrapStyle g.content
            (hnodollar g (List.mem_filter.mp hgmem).1 (List.mem_filter.mp hgmem).2)
      have hmem : wrapStyle f.content ∈ (cssFilesOf files).map (fun g => wrapStyle g.content) :=
        List.mem_map_of_mem _ (List.mem_filter.mpr ⟨hf, hcss⟩)
      have hsty : SubstrL (wrapStyle f.content) (stylesOf files) :=
        substr_joinSep _ _ _ hmem
      exact hsty.trans (substr_ins_injectBefore _ _ _ hsty0 (by decide))
    · intro hnodollar f hf hjs
      have hscr0 : '$' ∉ scriptsOf files := by
        unfold scriptsOf
        apply not_mem_joinSep
        · decide
        · intro b hbm
          obtain ⟨g, hgmem, rfl⟩ := List.mem_map.mp hbm
          exact not_mem_wrapScript g.content
            (hnodollar g (List.mem_filter.mp hgmem).1 (List.mem_filter.mp hgmem).2)
      have hmem : wrapScript f.content ∈ (jsFilesOf files).map (fun g => wrapScript g.content) :=
        List.mem_map_of_mem _ (List.mem_filter.mpr ⟨hf, hjs⟩)
      have hscr : SubstrL (wrapScript f.content) (scriptsOf files) :=
        substr_joinSep _ _ _ hmem
      rw [hprev]
      exact hscr.trans (substr_ins_injectBefore _ _ _ hscr0 (by decide))

/-- A concrete store with a designated HTML file, one css file and one js
file. -/
def sampleFiles : List FileNode :=
  [⟨"content", "<p>hi</p>", "file"⟩, ⟨"s.css", "bodystyle", "file"⟩, ⟨"m.js", "codehere", "file"⟩]

/-- A concrete store whose css content carries a body close tag. -/
def brokenFiles : List FileNode :=
  [⟨"content", "", "file"⟩, ⟨"a.css", "a</body>b", "file"⟩]

/-- C7 counterexample: a designated HTML file exists, a css file exists,
yet its wrapped style block does not occur in the composed preview
document, because the script insertion step split it at the body close tag
inside the css content. -/
theorem previewContent_css_block_broken :
    designatedHtml brokenFiles = some ⟨"content", "", "file"⟩ ∧
    endsWithL ("a.css") (".css") = true ∧
    ¬ SubstrL (wrapStyle ("a</body>b")) (previewContentL brokenFiles) := by
  refine ⟨rfl, rfl, ?_⟩
  intro hsub
  exact absurd ((SubstrL_iff_findOcc _ _).mp hsub) (by decide)

/-- Witness: on a concrete store the style block occurs in the styled
document and the script block occurs in the preview document. -/
theorem previewContent_composition_witness :
    SubstrL (wrapStyle ("bodystyle")) (styledDoc sampleFiles ⟨"content", "<p>hi</p>", "file"⟩) ∧
    SubstrL (wrapScript ("codehere")) (previewContentL sampleFiles) := by
  constructor
  · exact ((previewContent_composition sampleFiles).2 ⟨"content", "<p>hi</p>", "file"⟩ rfl).2.1
      (by decide) ⟨"s.css", "bodystyle", "file"⟩ (by decide) rfl
  · exact ((previewContent_composition sampleFiles).2 ⟨"content", "<p>hi</p>", "file"⟩ rfl).2.2
      (by decide) ⟨"m.js", "codehere", "file"⟩ (by decide) rfl

end Codenix
